import Mathlib

/-!
Verification of the clip-concatenation export pipeline of the mytube backend
(`server/src/generatePublish.js`).  The JavaScript source is shallowly embedded:
JS numbers are modelled as rationals extended with `NaN` and the two infinities,
JS values as a small inductive, stateful request handling as explicit state
passing over an environment of injected collaborator results.
-/

set_option maxHeartbeats 1000000

namespace MyTube

/-- Model of a JS number: a finite value (JS doubles that occur in this pipeline
are modelled as rationals) or one of the special values `NaN`, `Infinity`,
`-Infinity`. -/
inductive JNum where
  | num (q : ℚ)
  | nan
  | inf
  | ninf
deriving DecidableEq, Repr

/-- Model of a JS value as far as the pipeline inspects them. -/
inductive JVal where
  | vundef
  | vnull
  | vbool (b : Bool)
  | vnum (n : JNum)
  | vstr (s : String)
deriving DecidableEq, Repr

/-- Models `Number.isFinite`. -/
def JNum.isFinite : JNum → Bool
  | .num _ => true
  | _ => false

/-- The rational value of a finite JS number (junk value `0` otherwise; only
applied to values that passed the finiteness filter). -/
def qOf : JNum → ℚ
  | .num q => q
  | _ => 0

/-- JS subtraction `a - b` on numbers, with IEEE special-value rules. -/
def jsub : JNum → JNum → JNum
  | .nan, _ => .nan
  | _, .nan => .nan
  | .inf, .inf => .nan
  | .ninf, .ninf => .nan
  | .inf, _ => .inf
  | .ninf, _ => .ninf
  | .num _, .inf => .ninf
  | .num _, .ninf => .inf
  | .num a, .num b => .num (a - b)

/-- JS `Math.max(0, x)`. -/
def jmax0 : JNum → JNum
  | .num a => .num (max 0 a)
  | .nan => .nan
  | .inf => .inf
  | .ninf => .num 0

/-- JS `a > b` on numbers (`false` whenever either side is `NaN`). -/
def jgtB : JNum → JNum → Bool
  | .num a, .num b => decide (b < a)
  | .inf, .num _ => true
  | .inf, .ninf => true
  | .num _, .ninf => true
  | _, _ => false

/-- JS `a >= b` on numbers (`false` whenever either side is `NaN`). -/
def jgeB : JNum → JNum → Bool
  | .num a, .num b => decide (b ≤ a)
  | .inf, .num _ => true
  | .inf, .ninf => true
  | .num _, .ninf => true
  | .inf, .inf => true
  | .ninf, .ninf => true
  | _, _ => false

/-- Is the value nullish (`undefined` or `null`), as consumed by `??`. -/
def nullish : JVal → Bool
  | .vundef => true
  | .vnull => true
  | _ => false

/-- JS nullish coalescing `a ?? b`. -/
def coalesce (a b : JVal) : JVal := if nullish a then b else a

/-- JS truthiness. -/
def jsTruthy : JVal → Bool
  | .vundef => false
  | .vnull => false
  | .vbool b => b
  | .vnum (.num q) => decide (q ≠ 0)
  | .vnum .nan => false
  | .vnum _ => true
  | .vstr s => decide (s ≠ "")

/-! ### Decimal rendering of numbers (JS template-literal interpolation) -/

/-- The decimal digit character for `n % 10`. -/
def digitChar (n : Nat) : Char := Char.ofNat (48 + n % 10)

/-- Accumulator-style decimal digits of a natural number; the structural fuel
argument (always sufficient when starting at `n + 1`) keeps the definition
kernel-evaluable. -/
def natCharsAux : Nat → Nat → List Char → List Char
  | 0, n, acc => digitChar n :: acc
  | fuel + 1, n, acc =>
    if n < 10 then digitChar n :: acc
    else natCharsAux fuel (n / 10) (digitChar (n % 10) :: acc)

/-- Decimal rendering of a natural number. -/
def natChars (n : Nat) : List Char := natCharsAux (n + 1) n []

/-- Decimal rendering of a natural number, as a string. -/
def natStr (n : Nat) : String := String.mk (natChars n)

/-- Decimal rendering of an integer. -/
def intStr (i : Int) : String :=
  if i < 0 then "-" ++ natStr i.natAbs else natStr i.natAbs

/-- Decimal digits of the fractional part `0 ≤ r < 1` of a number, up to `fuel`
digits, stopping at an exact zero remainder (JS never prints trailing zeros). -/
def fracChars : Nat → ℚ → List Char
  | 0, _ => []
  | fuel + 1, r =>
    if r = 0 then []
    else
      let r10 := r * 10
      let d : Nat := (⌊r10⌋).toNat
      digitChar d :: fracChars fuel (r10 - (d : ℚ))

/-- Decimal rendering of a rational, modelling how JS prints the (decimally
representable) doubles that flow through this pipeline. -/
def qStr (q : ℚ) : String :=
  let sgn := if q < 0 then "-" else ""
  let a := |q|
  let ip : Nat := (⌊a⌋).toNat
  let fr := a - (ip : ℚ)
  sgn ++ natStr ip ++ (if fr = 0 then "" else "." ++ String.mk (fracChars 20 fr))

/-- JS number-to-string coercion. -/
def jnumStr : JNum → String
  | .num q => qStr q
  | .nan => "NaN"
  | .inf => "Infinity"
  | .ninf => "-Infinity"

/-! ### String-to-number coercion (`Number(...)` on strings) -/

/-- JS whitespace as far as the fields of this pipeline use it. -/
def isWs (c : Char) : Bool := c == ' ' || c == '\t' || c == '\n' || c == '\r'

/-- Trim leading and trailing whitespace from a character list. -/
def trimChars (l : List Char) : List Char :=
  ((l.dropWhile isWs).reverse.dropWhile isWs).reverse

/-- Value of an all-digit character list, `none` if empty or non-digit. -/
def digitsVal : List Char → Option Nat
  | [] => none
  | [c] => if c.isDigit then some (c.toNat - 48) else none
  | c :: rest => do
    let v ← digitsVal rest
    if c.isDigit then some ((c.toNat - 48) * 10 ^ rest.length + v) else none

/-- Split a character list at every occurrence of the separator, JS
`String.prototype.split` style (keeps empty fields). -/
def splitCh (sep : Char) : List Char → List (List Char)
  | [] => [[]]
  | c :: rest =>
    match splitCh sep rest with
    | [] => [[]]
    | cur :: parts => if c == sep then [] :: cur :: parts else (c :: cur) :: parts

/-- Models `Number(s)` for a string `s`: decimal literals with optional sign and
fraction, the empty (or all-whitespace) string is `0`, `Infinity` accepted,
anything else is `NaN` (exotic forms such as hex or exponents do not occur in
this pipeline). -/
def numOfString (s : String) : JNum :=
  let t := trimChars s.data
  if t = [] then .num 0
  else
    let (sgn, u) : ℚ × List Char :=
      match t with
      | '-' :: r => (-1, r)
      | '+' :: r => (1, r)
      | r => (1, r)
    if u = "Infinity".data then (if sgn = 1 then .inf else .ninf)
    else
      match splitCh '.' u with
      | [a] =>
        match digitsVal a with
        | some v => .num (sgn * v)
        | none => .nan
      | [a, b] =>
        if a = [] then
          match digitsVal b with
          | some v => .num (sgn * (v / 10 ^ b.length))
          | none => .nan
        else if b = [] then
          match digitsVal a with
          | some v => .num (sgn * v)
          | none => .nan
        else
          match digitsVal a, digitsVal b with
          | some v, some w => .num (sgn * (v + w / 10 ^ b.length))
          | _, _ => .nan
      | _ => .nan

/-- JS `Number(v)` coercion. -/
def jsNumber : JVal → JNum
  | .vundef => .nan
  | .vnull => .num 0
  | .vbool b => .num (if b then 1 else 0)
  | .vnum n => n
  | .vstr s => numOfString s

/-- JS `String(v)` coercion. -/
def jsString : JVal → String
  | .vundef => "undefined"
  | .vnull => "null"
  | .vbool b => if b then "true" else "false"
  | .vnum n => jnumStr n
  | .vstr s => s

/-- Models `String(v || "")`: the string coercion applied to `v` when truthy and to
`""` otherwise. -/
def jsStringOrEmpty (v : JVal) : String :=
  if jsTruthy v then jsString v else ""

/-! ### Timeline normalizer (`normTimeline`) -/

/-- A raw timeline element as submitted by the client: a JS object whose
relevant properties may each be any JS value (absent properties read as
`undefined`). -/
structure RawClip where
  videoId : JVal := .vundef
  id : JVal := .vundef
  start : JVal := .vundef
  in_ : JVal := .vundef
  out : JVal := .vundef
deriving DecidableEq, Repr

/-- The raw `timeline` request field: either a JS array of objects or any
non-array value (`Array.isArray` fails). -/
inductive RawInput where
  | arr (elems : List RawClip)
  | notArray
deriving DecidableEq, Repr

/-- A coerced clip, as produced by the `.map` step of `normTimeline`:
`videoId: String(c.videoId ?? c.id ?? "")`, numeric fields through
`Number(x ?? 0)`.  The source field `in` is spelled `in_` (reserved word). -/
structure Clip where
  videoId : String
  start : JNum
  in_ : JNum
  out : JNum
deriving DecidableEq, Repr

/-- The `.map` step of `normTimeline`. -/
def coerceClip (c : RawClip) : Clip :=
  { videoId := jsString (coalesce c.videoId (coalesce c.id (.vstr "")))
    start := jsNumber (coalesce c.start (.vnum (.num 0)))
    in_ := jsNumber (coalesce c.in_ (.vnum (.num 0)))
    out := jsNumber (coalesce c.out (.vnum (.num 0))) }

/-- First `.filter`: truthy `videoId` and all numeric fields finite. -/
def keepClip1 (c : Clip) : Bool :=
  decide (c.videoId ≠ "") && c.start.isFinite && c.in_.isFinite && c.out.isFinite

/-- Second `.filter`: `c.out > c.in && c.start >= 0`. -/
def keepClip2 (c : Clip) : Bool :=
  jgtB c.out c.in_ && jgeB c.start (.num 0)

/-- Sort order of the final `.sort((a, b) => a.start - b.start)`: on the finite
values present after filtering, the sign of the double subtraction agrees with
the rational order of the starts. -/
def startLe (a b : Clip) : Prop := qOf a.start ≤ qOf b.start

instance : DecidableRel startLe := fun a b =>
  inferInstanceAs (Decidable (qOf a.start ≤ qOf b.start))

instance : IsTotal Clip startLe := ⟨fun a b => le_total (qOf a.start) (qOf b.start)⟩

instance : IsTrans Clip startLe := ⟨fun _ _ _ => le_trans⟩

/-- The surviving elements before sorting: map then the two filters. -/
def survivors : RawInput → List Clip
  | .notArray => []
  | .arr l => ((l.map coerceClip).filter keepClip1).filter keepClip2

/-- The normalizer `normTimeline`: non-arrays become the empty timeline; elements are coerced,
filtered and stably sorted ascending by `start` (JS `Array.prototype.sort` is
stable; insertion sort realizes the same stable-sorted result). -/
def normTimeline (raw : RawInput) : List Clip :=
  (survivors raw).insertionSort startLe

/-- Re-embedding of a normalized clip as a raw element, for restating
normalization on its own output: the output objects carry a string `videoId`
and number fields `start`/`in`/`out`. -/
def clipToRaw (c : Clip) : RawClip :=
  { videoId := .vstr c.videoId
    start := .vnum c.start
    in_ := .vnum c.in_
    out := .vnum c.out }

/-! ### Filter graph builder (`buildFilterForConcat`) -/

/-- The per-clip `const dur = Math.max(0, c.out - c.in)`. -/
def clipDur (c : Clip) : JNum := jmax0 (jsub c.out c.in_)

/-- The video trim stage pushed for clip `i`. -/
def videoStage (i : Nat) (c : Clip) : String :=
  "[" ++ natStr i ++ ":v]trim=start=" ++ jnumStr c.in_ ++ ":duration=" ++
    jnumStr (clipDur c) ++ ",setpts=PTS-STARTPTS[v" ++ natStr i ++ "]"

/-- The audio stage pushed for clip `i`: a real audio trim when the probed flag
is set, synthesized silence of the clip duration otherwise. -/
def audioStage (i : Nat) (c : Clip) (flag : Bool) : String :=
  if flag then
    "[" ++ natStr i ++ ":a]atrim=start=" ++ jnumStr c.in_ ++ ":duration=" ++
      jnumStr (clipDur c) ++ ",asetpts=PTS-STARTPTS[a" ++ natStr i ++ "]"
  else
    "aevalsrc=0:d=" ++ jnumStr (clipDur c) ++ "[a" ++ natStr i ++ "]"

/-- The `inputs` array accumulated by the builder loop: the labels
`[v0], [a0], [v1], [a1], ...` pushed in interleaved pairs. -/
def inputLabels (n : Nat) : List String :=
  (List.range n).flatMap fun i => ["[v" ++ natStr i ++ "]", "[a" ++ natStr i ++ "]"]

/-- The joined `inputs.join("")`: the interleaved label prefix of the final stage. -/
def interleavedLabels (n : Nat) : String :=
  String.join (inputLabels n)

/-- The final concatenation stage. -/
def concatStage (n : Nat) : String :=
  interleavedLabels n ++ "concat=n=" ++ natStr n ++ ":v=1:a=1[vout][aout]"

/-- The `parts` array of `buildFilterForConcat`: per-clip video and audio
stages in loop order (`audioFlags?.[i]` reads `false` past the end of the
flags array), then the single concatenation stage. -/
def buildParts (clips : List Clip) (audioFlags : List Bool) : List String :=
  (clips.enum.flatMap fun p =>
    [videoStage p.1 p.2, audioStage p.1 p.2 (audioFlags.getD p.1 false)]) ++
  [concatStage clips.length]

/-- The builder `buildFilterForConcat`: the parts joined with `;`. -/
def buildFilterForConcat (clips : List Clip) (audioFlags : List Bool) : String :=
  String.intercalate ";" (buildParts clips audioFlags)

/-! ### Process runner and stream prober (`runCmd`, `hasAudioStream`) -/

/-- The observable outcome of `spawn`ing an external process: either the
`error` event fired (e.g. missing binary) or the process closed with an exit
code after emitting the captured stdout/stderr text. -/
inductive SpawnOutcome where
  | spawnErr (msg : String)
  | close (code : Int) (stdout stderr : String)
deriving DecidableEq, Repr

/-- The runner `runCmd`: resolves with the captured streams iff the exit code is exactly
zero; otherwise rejects with the captured stderr, falling back to
`"<cmd> exited with code N"` when no stderr text was captured. -/
def runCmdM (cmd : String) (o : SpawnOutcome) : Except String (String × String) :=
  match o with
  | .spawnErr m => .error m
  | .close code out err =>
    if code = 0 then .ok (out, err)
    else .error (if err = "" then cmd ++ " exited with code " ++ intStr code else err)

/-- The prober `hasAudioStream`: true iff the `ffprobe` invocation succeeded and its
trimmed stdout (`String(out || "").trim()`, the identity coercion on the
captured string) is exactly `"audio"`; every failure is caught and yields
`false`. -/
def hasAudioStream (o : SpawnOutcome) : Bool :=
  match runCmdM "ffprobe" o with
  | .ok (out, _) => String.mk (trimChars out.data) == "audio"
  | .error _ => false

/-! ### Tag normalization (`tagsArr`) -/

/-- First-occurrence deduplication with the set of already-seen entries, as
performed by `Array.from(new Set(...))` (a JS `Set` iterates in insertion
order and skips entries already present). -/
def dedupAux (seen : List (List Char)) : List (List Char) → List (List Char)
  | [] => []
  | x :: xs => if x ∈ seen then dedupAux seen xs else x :: dedupAux (x :: seen) xs

/-- Models `Array.from(new Set(l))`. -/
def dedupFirst (l : List (List Char)) : List (List Char) := dedupAux [] l

/-- The post-split, pre-truncation tag pipeline:
`split(",").map(t => t.trim().toLowerCase()).filter(Boolean)`. -/
def tagItems (tags : String) : List (List Char) :=
  (((splitCh ',' tags.data).map fun t => (trimChars t).map Char.toLower).filter
    fun t => t ≠ [])

/-- The tag pipeline `tagsArr`: the tag pipeline takes the first 30 entries (`slice(0, 30)`)
and only then deduplicates them through a `Set`. -/
def tagsArr (tags : String) : List String :=
  (dedupFirst ((tagItems tags).take 30)).map String.mk

/-- Modelled from the spec claim's wording, for comparison with `tagsArr`:
deduplicate the full entry list first and truncate the deduplicated list
to 30. -/
def tagsSpecOrder (tags : String) : List String :=
  ((dedupFirst (tagItems tags)).take 30).map String.mk

/-! ### Export orchestrator (`registerGeneratePublish` request handler) -/

/-- The parsed request body; absent properties read as `undefined` and take
the destructuring defaults inside the handler. -/
structure ReqBody where
  title : JVal := .vundef
  description : JVal := .vundef
  tags : JVal := .vundef
  visibility : JVal := .vundef
  timelineName : JVal := .vundef
  timeline : RawInput := .notArray
deriving Repr

/-- The injected collaborator outcomes for one request: request body, bucket
configuration (`""` models an unset `S3_UPLOADS_BUCKET`), the `videos` rows,
and the result of each external call.  `rmFails` says whether the `rmSync`
inside `cleanup` throws. -/
structure Env where
  body : Option ReqBody
  bucket : String
  rows : List (String × String)
  downloadOk : Nat → Except String Unit
  hasAudio : Nat → Bool
  encode : String → Except String Unit
  upload : Except String Unit
  insertId : Except String Nat
  rmFails : Bool

/-- Observable request state: whether the scratch directory still exists, how
many source downloads were attempted, the server-side error log, and the tags
stored by a successful insert. -/
structure HState where
  scratchExists : Bool := true
  downloads : Nat := 0
  log : List String := []
  insertedTags : Option (List String) := none
deriving DecidableEq, Repr

/-- The JSON response sent to the client. -/
structure Response where
  status : Nat
  error : Option String := none
  ok : Bool := false
  videoId : Option Nat := none
deriving DecidableEq, Repr

/-- The scratch-directory `cleanup`: best-effort recursive removal of the scratch directory; a
throwing `rmSync` is swallowed and leaves the directory behind. -/
def cleanup (env : Env) (s : HState) : HState :=
  if env.rmFails then s else { s with scratchExists := false }

/-- Models `req.body || {}`. -/
def bodyOf (env : Env) : ReqBody := env.body.getD {}

/-- Models `String(title || "").trim()`. -/
def titleStrOf (env : Env) : String :=
  String.mk (trimChars (jsStringOrEmpty (bodyOf env).title).data)

/-- The normalized clips of the request. -/
def clipsOf (env : Env) : List Clip := normTimeline (bodyOf env).timeline

/-- The `byId` lookup built from the metadata query: the `filename` of the
first row matching an id (ids are unique in the `videos` table). -/
def lkOf (env : Env) (id : String) : Option String :=
  (env.rows.find? fun r => r.1 == id).map Prod.snd

/-- Models `String(visibility).toLowerCase()` checked against the allowed set with
fallback `"public"`; the destructuring default is `"public"`. -/
def visOf (env : Env) : String :=
  let v := if (bodyOf env).visibility = .vundef then JVal.vstr "public"
           else (bodyOf env).visibility
  let lv := String.mk ((jsString v).data.map Char.toLower)
  if lv = "public" || lv = "private" || lv = "unlisted" then lv else "public"

/-- Models `String(tags || "")` with destructuring default `""`. -/
def tagsStrOf (env : Env) : String :=
  jsStringOrEmpty (if (bodyOf env).tags = .vundef then JVal.vstr "" else (bodyOf env).tags)

/-- The probed audio flags, one per downloaded input in positional order. -/
def flagsOf (env : Env) : List Bool :=
  (List.range (clipsOf env).length).map env.hasAudio

/-- The filter graph handed to the encoder. -/
def filterOf (env : Env) : String :=
  buildFilterForConcat (clipsOf env) (flagsOf env)

/-- Outcome of the sequential download loop. -/
inductive LoopResult where
  | early (r : Response)
  | thrown (e : String)
  | done
deriving DecidableEq, Repr

/-- The download loop: for each clip in order, read the resolved row's
`filename` (an empty one returns the 400 early), then download; a rejected
download throws out to the catch-all.  Returns the number of download attempts
together with the outcome. -/
def downloadLoop (dl : Nat → Except String Unit) (lk : String → Option String) :
    Nat → List Clip → Nat × LoopResult
  | _, [] => (0, .done)
  | i, c :: rest =>
    match lk c.videoId with
    | none => (0, .thrown "TypeError: row undefined")
    | some filename =>
      if filename = "" then
        (0, .early { status := 400, error := some ("Missing filename for " ++ c.videoId) })
      else
        match dl i with
        | .error e => (1, .thrown e)
        | .ok _ =>
          let (n, r) := downloadLoop dl lk (i + 1) rest
          (n + 1, r)

/-- The catch-all handler: log the error server-side, clean up, and answer 500
with `e?.message || "Failed to publish generated video"`. -/
def catchAll (env : Env) (e : String) (s : HState) : Response × HState :=
  let s1 := { s with log := s.log ++ ["POST /api/generate/publish error: " ++ e] }
  ({ status := 500,
     error := some (if e = "" then "Failed to publish generated video" else e) },
   cleanup env s1)

/-- The `POST /api/generate/publish` handler, entered after the scratch
directory tree has been created.  Every exit path of the source invokes
`cleanup()` immediately before responding. -/
def handler (env : Env) : Response × HState :=
  let s0 : HState := {}
  let clips := clipsOf env
  if titleStrOf env = "" then
    ({ status := 400, error := some "Title is required" }, cleanup env s0)
  else if clips.length = 0 then
    ({ status := 400, error := some "Timeline is empty" }, cleanup env s0)
  else if env.bucket = "" then
    ({ status := 500, error := some "Missing env S3_UPLOADS_BUCKET" }, cleanup env s0)
  else
    match clips.find? fun c => (lkOf env c.videoId).isNone with
    | some c =>
      ({ status := 400, error := some ("Unknown clip videoId " ++ c.videoId) },
       cleanup env s0)
    | none =>
      match downloadLoop env.downloadOk (lkOf env) 0 clips with
      | (n, res) =>
        let s1 := { s0 with downloads := n }
        match res with
        | .early r => (r, cleanup env s1)
        | .thrown e => catchAll env e s1
        | .done =>
          match env.encode (filterOf env) with
          | .error e => catchAll env e s1
          | .ok _ =>
            match env.upload with
            | .error e => catchAll env e s1
            | .ok _ =>
              match env.insertId with
              | .error e => catchAll env e s1
              | .ok vid =>
                let s2 := { s1 with insertedTags := some (tagsArr (tagsStrOf env)) }
                ({ status := 200, ok := true, videoId := some vid }, cleanup env s2)

/-! ### Proof-side characterizations and helper predicates -/

/-- The response/state of the catch-all before cleanup (for the
`handler_eq_core` decomposition below). -/
def catchCore (e : String) (s : HState) : Response × HState :=
  ({ status := 500,
     error := some (if e = "" then "Failed to publish generated video" else e) },
   { s with log := s.log ++ ["POST /api/generate/publish error: " ++ e] })

/-- The handler with the per-branch `cleanup()` calls factored out: every exit
path of `handler` performs exactly this computation followed by one `cleanup`.
Proved equal to `handler` in `handler_eq_core`; never reads `rmFails`. -/
def respCore (env : Env) : Response × HState :=
  let s0 : HState := {}
  let clips := clipsOf env
  if titleStrOf env = "" then
    ({ status := 400, error := some "Title is required" }, s0)
  else if clips.length = 0 then
    ({ status := 400, error := some "Timeline is empty" }, s0)
  else if env.bucket = "" then
    ({ status := 500, error := some "Missing env S3_UPLOADS_BUCKET" }, s0)
  else
    match clips.find? fun c => (lkOf env c.videoId).isNone with
    | some c =>
      ({ status := 400, error := some ("Unknown clip videoId " ++ c.videoId) }, s0)
    | none =>
      match downloadLoop env.downloadOk (lkOf env) 0 clips with
      | (n, res) =>
        let s1 := { s0 with downloads := n }
        match res with
        | .early r => (r, s1)
        | .thrown e => catchCore e s1
        | .done =>
          match env.encode (filterOf env) with
          | .error e => catchCore e s1
          | .ok _ =>
            match env.upload with
            | .error e => catchCore e s1
            | .ok _ =>
              match env.insertId with
              | .error e => catchCore e s1
              | .ok vid =>
                ({ status := 200, ok := true, videoId := some vid },
                 { s1 with insertedTags := some (tagsArr (tagsStrOf env)) })

/-- Every character of the list is alphabetic. -/
def allAlpha (l : List Char) : Prop := ∀ c ∈ l, c.isAlpha = true

/-- No character of the list is alphabetic. -/
def noAlpha (l : List Char) : Prop := ∀ c ∈ l, c.isAlpha = false

/-- Word `w` occurs as a contiguous segment of `l`. -/
def OccursIn (w l : List Char) : Prop := ∃ p q, p ++ w ++ q = l

/-- Boolean contiguous-segment search. -/
def hasSeg (w : List Char) : List Char → Bool
  | [] => decide (w = [])
  | c :: rest => w.isPrefixOf (c :: rest) || hasSeg w rest

/-- A filter-graph stage mentioning the concatenation filter. -/
def isConcatStage (s : String) : Bool := hasSeg "concat".data s.data

/-! ### Concrete inputs for witnesses and counterexamples -/

/-- A raw timeline: two valid clips listed out of `start` order, one entry
with an empty source id and one with `out = in`, both of which must be
dropped. -/
def rawEx : RawInput := .arr
  [ { videoId := .vstr "B", start := .vnum (.num 5), in_ := .vnum (.num 0),
      out := .vnum (.num 3) }
  , { videoId := .vstr "A", start := .vnum (.num 0), in_ := .vnum (.num 2),
      out := .vnum (.num 5) }
  , { videoId := .vstr "", start := .vnum (.num 1), in_ := .vnum (.num 0),
      out := .vnum (.num 3) }
  , { videoId := .vstr "C", start := .vnum (.num 1), in_ := .vnum (.num 3),
      out := .vnum (.num 3) } ]

/-- A fully successful request environment over `rawEx`. -/
def envHappy : Env :=
  { body := some { title := .vstr "My Video",
                   tags := .vstr "Funny, funny , CATS,,cats",
                   timeline := rawEx }
    bucket := "uploads-bucket"
    rows := [("A", "a.mp4"), ("B", "b.mp4")]
    downloadOk := fun _ => .ok ()
    hasAudio := fun i => i == 0
    encode := fun _ => .ok ()
    upload := .ok ()
    insertId := .ok 77
    rmFails := false }

/-- Environment `envHappy` with the row for source id `B` missing from the metadata
store. -/
def envUnknown : Env := { envHappy with rows := [("A", "a.mp4")] }

/-- Environment `envHappy` with an encoder failure whose message carries an internal
scratch path. -/
def envLeak : Env :=
  { envHappy with encode := fun _ =>
      Except.error "ffmpeg: /tmp/mytube-export-abc/inputs/src-0-A.mp4: Invalid data" }

/-- Environment `envHappy` with the first source download rejecting. -/
def envDownFail : Env :=
  { envHappy with downloadOk := fun _ =>
      Except.error "S3 download failed for a.mp4" }

/-- Environment `envHappy` with the output upload rejecting. -/
def envUpFail : Env := { envHappy with upload := Except.error "upload timeout" }

/-- Environment `envHappy` with the database insert rejecting. -/
def envInsFail : Env := { envHappy with insertId := Except.error "db insert failed" }

/-- A tag string with 32 entries and 31 distinct tags (`0` appears twice,
then `1` … `30`). -/
def bigTagInput : String :=
  "0,0,1,2,3,4,5,6,7,8,9,10,11,12,13,14,15,16,17,18,19,20,21,22,23,24,25,26,27,28,29,30"

/-- The coerced clip `A` of `rawEx`. -/
def cA : Clip := { videoId := "A", start := .num 0, in_ := .num 2, out := .num 5 }

/-- The coerced clip `B` of `rawEx`. -/
def cB : Clip := { videoId := "B", start := .num 5, in_ := .num 0, out := .num 3 }

/-- A clip that would not survive normalization (`out <= in`), exercising the
builder's duration clamping. -/
def cBad : Clip := { videoId := "X", start := .num 0, in_ := .num 5, out := .num 2 }

/-! ## Lemmas: decimal rendering -/

theorem digitChar_not_alpha (n : Nat) : (digitChar n).isAlpha = false := by
  have h : n % 10 < 10 := Nat.mod_lt _ (by decide)
  rw [digitChar]
  set m := n % 10 with hm
  interval_cases m <;> decide

theorem natCharsAux_ne_nil (fuel : Nat) :
    ∀ (n : Nat) (acc : List Char), natCharsAux fuel n acc ≠ [] := by
  induction fuel with
  | zero => intro n acc; simp [natCharsAux]
  | succ fuel ih =>
    intro n acc
    rw [natCharsAux]
    split
    · simp
    · exact ih _ _

theorem mem_natCharsAux (fuel : Nat) :
    ∀ {n : Nat} {acc : List Char} {c : Char},
      c ∈ natCharsAux fuel n acc → c ∈ acc ∨ c.isAlpha = false := by
  induction fuel with
  | zero =>
    intro n acc c hc
    rw [natCharsAux] at hc
    rcases List.mem_cons.mp hc with hc | hc
    · exact Or.inr (hc ▸ digitChar_not_alpha n)
    · exact Or.inl hc
  | succ fuel ih =>
    intro n acc c hc
    rw [natCharsAux] at hc
    split at hc
    · rcases List.mem_cons.mp hc with hc | hc
      · exact Or.inr (hc ▸ digitChar_not_alpha n)
      · exact Or.inl hc
    · rcases ih hc with hc' | hc'
      · rcases List.mem_cons.mp hc' with hc'' | hc''
        · exact Or.inr (hc'' ▸ digitChar_not_alpha _)
        · exact Or.inl hc''
      · exact Or.inr hc'

theorem natChars_ne_nil (n : Nat) : natChars n ≠ [] := natCharsAux_ne_nil (n + 1) n []

theorem natChars_noAlpha (n : Nat) : noAlpha (natChars n) := by
  intro c hc
  rcases mem_natCharsAux (n + 1) hc with h | h
  · exact absurd h (List.not_mem_nil c)
  · exact h

theorem fracChars_noAlpha (fuel : Nat) : ∀ r : ℚ, noAlpha (fracChars fuel r) := by
  induction fuel with
  | zero => intro r c hc; simp [fracChars] at hc
  | succ fuel ih =>
    intro r c hc
    rw [fracChars] at hc
    by_cases h : r = 0
    · simp [h] at hc
    · simp only [if_neg h, List.mem_cons] at hc
      rcases hc with hc | hc
      · exact hc ▸ digitChar_not_alpha _
      · exact ih _ c hc

theorem qStr_noAlpha (q : ℚ) : noAlpha (qStr q).data := by
  intro c hc
  simp only [qStr, String.data_append] at hc
  rcases List.mem_append.mp hc with hc | hc
  · rcases List.mem_append.mp hc with hc | hc
    · by_cases h : q < 0 <;> simp [h] at hc
      · subst hc; decide
    · exact natChars_noAlpha _ c hc
  · by_cases h : |q| - ((⌊|q|⌋).toNat : ℚ) = 0
    · simp [h] at hc
    · simp only [if_neg h, String.data_append, List.mem_append] at hc
      rcases hc with hc | hc
      · simp at hc; subst hc; decide
      · exact fracChars_noAlpha _ _ c hc

theorem qStr_ne_nil (q : ℚ) : (qStr q).data ≠ [] := by
  simp only [qStr, String.data_append]
  intro h
  rcases List.append_eq_nil.mp h with ⟨h1, _⟩
  rcases List.append_eq_nil.mp h1 with ⟨_, h3⟩
  exact natChars_ne_nil _ h3

/-! ## Lemmas: contiguous-segment occurrence -/

theorem isPrefixOf_append_self (w q : List Char) : w.isPrefixOf (w ++ q) = true := by
  induction w with
  | nil => cases q <;> rfl
  | cons c cs ih => simp [List.isPrefixOf, ih]

theorem append_of_isPrefixOf {w l : List Char} (h : w.isPrefixOf l = true) :
    ∃ t, w ++ t = l := by
  induction w generalizing l with
  | nil => exact ⟨l, rfl⟩
  | cons c cs ih =>
    cases l with
    | nil => simp [List.isPrefixOf] at h
    | cons b bs =>
      simp only [List.isPrefixOf, Bool.and_eq_true, beq_iff_eq] at h
      obtain ⟨t, ht⟩ := ih h.2
      exact ⟨t, by rw [h.1, List.cons_append, ht]⟩

theorem hasSeg_nil_word (l : List Char) : hasSeg [] l = true := by
  induction l with
  | nil => rfl
  | cons c rest ih => rw [hasSeg]; simp [List.isPrefixOf]

theorem hasSeg_of_isPrefixOf {w l : List Char} (h : w.isPrefixOf l = true) :
    hasSeg w l = true := by
  cases l with
  | nil =>
    cases w with
    | nil => rfl
    | cons wh wt => simp [List.isPrefixOf] at h
  | cons c rest => rw [hasSeg]; simp [h]

theorem hasSeg_cons_of {w rest : List Char} (c : Char) (h : hasSeg w rest = true) :
    hasSeg w (c :: rest) = true := by
  rw [hasSeg]; simp [h]

theorem occursIn_iff_hasSeg (w l : List Char) : OccursIn w l ↔ hasSeg w l = true := by
  constructor
  · rintro ⟨p, q, hpq⟩
    induction p generalizing l with
    | nil =>
      subst hpq
      rw [List.nil_append]
      exact hasSeg_of_isPrefixOf (isPrefixOf_append_self w q)
    | cons pc p' ih =>
      subst hpq
      have h' : hasSeg w (p' ++ w ++ q) = true := ih _ rfl
      simp only [List.cons_append]
      exact hasSeg_cons_of pc (by simpa [List.append_assoc] using h')
  · intro h
    induction l with
    | nil =>
      rw [hasSeg, decide_eq_true_eq] at h
      exact ⟨[], [], by simp [h]⟩
    | cons c rest ih =>
      rw [hasSeg, Bool.or_eq_true] at h
      rcases h with h | h
      · obtain ⟨t, ht⟩ := append_of_isPrefixOf h
        exact ⟨[], t, by simp [ht]⟩
      · obtain ⟨p, q, hpq⟩ := ih h
        exact ⟨c :: p, q, by simp only [List.cons_append]; rw [List.append_assoc, ← List.append_assoc p w q, hpq]⟩

theorem occursIn_prefix_of_break {w : List Char} (hw : allAlpha w) {sc : Char}
    (hsc : sc.isAlpha = false) :
    ∀ (A q rest : List Char), w ++ q = A ++ sc :: rest → ∃ t, w ++ t = A := by
  induction w with
  | nil => exact fun A q rest _ => ⟨A, rfl⟩
  | cons wh wt ih =>
    intro A q rest h
    cases A with
    | nil =>
      rw [List.nil_append, List.cons_append] at h
      have : wh = sc := (List.cons_eq_cons.mp h).1
      have halpha : wh.isAlpha = true := hw wh (List.mem_cons_self _ _)
      rw [this, hsc] at halpha
      exact absurd halpha (by simp)
    | cons ah A2 =>
      rw [List.cons_append, List.cons_append] at h
      have h1 : wh = ah := (List.cons_eq_cons.mp h).1
      have h2 : wt ++ q = A2 ++ sc :: rest := (List.cons_eq_cons.mp h).2
      obtain ⟨t, ht⟩ := ih (fun c hc => hw c (List.mem_cons_of_mem _ hc)) A2 q rest h2
      exact ⟨t, by rw [List.cons_append, ht, h1]⟩

theorem occursIn_right_of_noAlpha {w s : List Char} (hw : allAlpha w) (hw0 : w ≠ [])
    (hs : noAlpha s) :
    ∀ (p q B : List Char), p ++ w ++ q = s ++ B → OccursIn w B := by
  induction s with
  | nil => exact fun p q B h => ⟨p, q, by simpa using h⟩
  | cons sc s' ih =>
    intro p q B h
    cases p with
    | nil =>
      cases w with
      | nil => exact absurd rfl hw0
      | cons wh wt =>
        rw [List.nil_append, List.cons_append, List.cons_append] at h
        have h1 : wh = sc := (List.cons_eq_cons.mp h).1
        have halpha : wh.isAlpha = true := hw wh (List.mem_cons_self _ _)
        rw [h1, hs sc (List.mem_cons_self _ _)] at halpha
        exact absurd halpha (by simp)
    | cons pc p' =>
      rw [List.cons_append, List.cons_append, List.cons_append] at h
      have h2 : p' ++ w ++ q = s' ++ B := by
        have := (List.cons_eq_cons.mp h).2
        simpa [List.append_assoc] using this
      exact ih (fun c hc => hs c (List.mem_cons_of_mem _ hc)) p' q B h2

theorem occursIn_split {w s : List Char} (hw : allAlpha w) (hw0 : w ≠ [])
    (hs : noAlpha s) (hs0 : s ≠ []) :
    ∀ (A p q B : List Char), p ++ w ++ q = A ++ (s ++ B) →
      OccursIn w A ∨ OccursIn w B := by
  intro A
  induction A with
  | nil =>
    intro p q B h
    exact Or.inr (occursIn_right_of_noAlpha hw hw0 hs p q B (by simpa using h))
  | cons ah A2 ih =>
    intro p q B h
    cases p with
    | nil =>
      cases s with
      | nil => exact absurd rfl hs0
      | cons sc s' =>
        rw [List.nil_append] at h
        have h' : w ++ q = (ah :: A2) ++ sc :: (s' ++ B) := by
          simpa [List.append_assoc] using h
        obtain ⟨t, ht⟩ :=
          occursIn_prefix_of_break hw (hs sc (List.mem_cons_self _ _)) _ _ _ h'
        exact Or.inl ⟨[], t, by simpa using ht⟩
    | cons pc p' =>
      rw [List.cons_append, List.cons_append, List.cons_append] at h
      have h2 : p' ++ w ++ q = A2 ++ (s ++ B) := by
        have := (List.cons_eq_cons.mp h).2
        simpa [List.append_assoc] using this
      rcases ih p' q B h2 with hA | hB
      · obtain ⟨p0, q0, hpq⟩ := hA
        refine Or.inl ⟨pc :: p0, q0, ?_⟩
        simp only [List.cons_append]
        rw [List.append_assoc, ← List.append_assoc p0 w q0, hpq,
          (List.cons_eq_cons.mp h).1]
      · exact Or.inr hB

/-- Splitting occurrences over a list of (template, numeric-chunk) pairs
followed by a trailing template: an all-alphabetic word occurring in the
concatenation occurs inside one of the templates. -/
theorem occursIn_alternating {w : List Char} (hw : allAlpha w) (hw0 : w ≠ []) :
    ∀ (ts : List (List Char × List Char)) (tail : List Char),
      (∀ p ∈ ts, noAlpha p.2 ∧ p.2 ≠ []) →
      OccursIn w ((ts.flatMap fun p => p.1 ++ p.2) ++ tail) →
      (∃ p ∈ ts, OccursIn w p.1) ∨ OccursIn w tail := by
  intro ts
  induction ts with
  | nil =>
    intro tail _ h
    right
    simpa using h
  | cons t ts' ih =>
    intro tail hts h
    obtain ⟨p, q, hpq⟩ := h
    have hassoc : p ++ w ++ q =
        t.1 ++ (t.2 ++ ((ts'.flatMap fun p => p.1 ++ p.2) ++ tail)) := by
      rw [hpq]; simp [List.flatMap_cons, List.append_assoc]
    have ht := hts t (List.mem_cons_self _ _)
    rcases occursIn_split hw hw0 ht.1 ht.2 _ _ _ _ hassoc with hA | hB
    · exact Or.inl ⟨t, List.mem_cons_self _ _, hA⟩
    · rcases ih tail (fun p hp => hts p (List.mem_cons_of_mem _ hp)) hB with h1 | h1
      · obtain ⟨p0, hp0, hocc⟩ := h1
        exact Or.inl ⟨p0, List.mem_cons_of_mem _ hp0, hocc⟩
      · exact Or.inr h1

/-! ## Lemmas: which parts are concatenation stages -/

theorem concat_word_allAlpha : allAlpha "concat".data := by
  intro c hc
  fin_cases hc <;> decide

theorem videoStage_no_concat (i : Nat) {c : Clip} {qi qd : ℚ}
    (hin : c.in_ = .num qi) (hd : clipDur c = .num qd) :
    isConcatStage (videoStage i c) = false := by
  rw [isConcatStage]
  by_contra hcon
  rw [Bool.not_eq_false] at hcon
  have hocc : OccursIn "concat".data (videoStage i c).data :=
    (occursIn_iff_hasSeg _ _).mpr hcon
  have hdata : (videoStage i c).data =
      ([("[".data, natChars i),
         (":v]trim=start=".data, (qStr qi).data),
         (":duration=".data, (qStr qd).data),
         (",setpts=PTS-STARTPTS[v".data, natChars i)].flatMap
            fun p => p.1 ++ p.2) ++ "]".data := by
    simp [videoStage, String.data_append, hin, hd, jnumStr, natStr,
      List.append_assoc]
  rw [hdata] at hocc
  have hchunks : ∀ p ∈ [("[".data, natChars i),
      (":v]trim=start=".data, (qStr qi).data),
      (":duration=".data, (qStr qd).data),
      (",setpts=PTS-STARTPTS[v".data, natChars i)], noAlpha p.2 ∧ p.2 ≠ [] := by
    intro p hp
    simp only [List.mem_cons, List.not_mem_nil, or_false] at hp
    rcases hp with h | h | h | h <;> subst h <;> refine ⟨?_, ?_⟩ <;>
      first
        | exact natChars_noAlpha i
        | exact qStr_noAlpha _
        | exact natChars_ne_nil i
        | exact qStr_ne_nil _
  rcases occursIn_alternating concat_word_allAlpha (by decide) _ _ hchunks hocc with
    ⟨p, hp, hocc'⟩ | htail
  · obtain ⟨pa, pb⟩ := p
    have hocc2 : OccursIn "concat".data pa := hocc'
    simp only [List.mem_cons, Prod.mk.injEq, List.not_mem_nil, or_false] at hp
    rcases hp with ⟨h1, h2⟩ | ⟨h1, h2⟩ | ⟨h1, h2⟩ | ⟨h1, h2⟩ <;> subst h1 <;>
      exact absurd ((occursIn_iff_hasSeg _ _).mp hocc2) (by decide)
  · exact absurd ((occursIn_iff_hasSeg _ _).mp htail) (by decide)

theorem audioStage_no_concat (i : Nat) {c : Clip} {qi qd : ℚ}
    (hin : c.in_ = .num qi) (hd : clipDur c = .num qd) (flag : Bool) :
    isConcatStage (audioStage i c flag) = false := by
  rw [isConcatStage]
  by_contra hcon
  rw [Bool.not_eq_false] at hcon
  have hocc : OccursIn "concat".data (audioStage i c flag).data :=
    (occursIn_iff_hasSeg _ _).mpr hcon
  cases flag with
  | true =>
    have hdata : (audioStage i c true).data =
        ([("[".data, natChars i),
           (":a]atrim=start=".data, (qStr qi).data),
           (":duration=".data, (qStr qd).data),
           (",asetpts=PTS-STARTPTS[a".data, natChars i)].flatMap
              fun p => p.1 ++ p.2) ++ "]".data := by
      simp [audioStage, String.data_append, hin, hd, jnumStr, natStr,
        List.append_assoc]
    rw [hdata] at hocc
    have hchunks : ∀ p ∈ [("[".data, natChars i),
        (":a]atrim=start=".data, (qStr qi).data),
        (":duration=".data, (qStr qd).data),
        (",asetpts=PTS-STARTPTS[a".data, natChars i)], noAlpha p.2 ∧ p.2 ≠ [] := by
      intro p hp
      simp only [List.mem_cons, List.not_mem_nil, or_false] at hp
      rcases hp with h | h | h | h <;> subst h <;> refine ⟨?_, ?_⟩ <;>
        first
          | exact natChars_noAlpha i
          | exact qStr_noAlpha _
          | exact natChars_ne_nil i
          | exact qStr_ne_nil _
    rcases occursIn_alternating concat_word_allAlpha (by decide) _ _ hchunks hocc with
      ⟨p, hp, hocc'⟩ | htail
    · obtain ⟨pa, pb⟩ := p
      have hocc2 : OccursIn "concat".data pa := hocc'
      simp only [List.mem_cons, Prod.mk.injEq, List.not_mem_nil, or_false] at hp
      rcases hp with ⟨h1, h2⟩ | ⟨h1, h2⟩ | ⟨h1, h2⟩ | ⟨h1, h2⟩ <;> subst h1 <;>
        exact absurd ((occursIn_iff_hasSeg _ _).mp hocc2) (by decide)
    · exact absurd ((occursIn_iff_hasSeg _ _).mp htail) (by decide)
  | false =>
    have hdata : (audioStage i c false).data =
        ([("aevalsrc=0:d=".data, (qStr qd).data),
           ("[a".data, natChars i)].flatMap fun p => p.1 ++ p.2) ++ "]".data := by
      simp [audioStage, String.data_append, hd, jnumStr, natStr,
        List.append_assoc]
    rw [hdata] at hocc
    have hchunks : ∀ p ∈ [("aevalsrc=0:d=".data, (qStr qd).data),
        ("[a".data, natChars i)], noAlpha p.2 ∧ p.2 ≠ [] := by
      intro p hp
      simp only [List.mem_cons, List.not_mem_nil, or_false] at hp
      rcases hp with h | h <;> subst h <;> refine ⟨?_, ?_⟩ <;>
        first
          | exact natChars_noAlpha i
          | exact qStr_noAlpha _
          | exact natChars_ne_nil i
          | exact qStr_ne_nil _
    rcases occursIn_alternating concat_word_allAlpha (by decide) _ _ hchunks hocc with
      ⟨p, hp, hocc'⟩ | htail
    · obtain ⟨pa, pb⟩ := p
      have hocc2 : OccursIn "concat".data pa := hocc'
      simp only [List.mem_cons, Prod.mk.injEq, List.not_mem_nil, or_false] at hp
      rcases hp with ⟨h1, h2⟩ | ⟨h1, h2⟩ <;> subst h1 <;>
        exact absurd ((occursIn_iff_hasSeg _ _).mp hocc2) (by decide)
    · exact absurd ((occursIn_iff_hasSeg _ _).mp htail) (by decide)

theorem isConcatStage_concatStage (n : Nat) : isConcatStage (concatStage n) = true := by
  rw [isConcatStage]
  refine (occursIn_iff_hasSeg _ _).mp ?_
  refine ⟨(interleavedLabels n).data,
    "=n=".data ++ (natChars n ++ ":v=1:a=1[vout][aout]".data), ?_⟩
  have hlit : ("concat".data ++ "=n=".data : List Char) = "concat=n=".data := by decide
  simp only [concatStage, String.data_append, natStr, List.append_assoc]
  rw [← List.append_assoc ("concat".data) ("=n=".data), hlit]

/-! ## Lemmas: sorting and the normalizer -/

theorem filter_orderedInsert (k : ℚ) (x : Clip) (l : List Clip) :
    (List.orderedInsert startLe x l).filter (fun c => qOf c.start == k) =
      if qOf x.start == k
      then x :: l.filter (fun c => qOf c.start == k)
      else l.filter (fun c => qOf c.start == k) := by
  induction l with
  | nil =>
    simp only [List.orderedInsert, List.filter_cons, List.filter_nil]
  | cons y ys ih =>
    rw [List.orderedInsert]
    by_cases hxy : startLe x y
    · rw [if_pos hxy]
      simp only [List.filter_cons]
    · rw [if_neg hxy]
      have hlt : qOf y.start < qOf x.start := lt_of_not_le hxy
      simp only [List.filter_cons, ih]
      by_cases px : (qOf x.start == k) = true
      · have py : (qOf y.start == k) = false := by
          rw [beq_eq_false_iff_ne]
          rw [beq_iff_eq] at px
          intro hy
          rw [px, hy] at hlt
          exact lt_irrefl _ hlt
        simp [px, py]
      · rw [Bool.not_eq_true] at px
        simp [px]

theorem filter_insertionSort_eq (k : ℚ) (l : List Clip) :
    (l.insertionSort startLe).filter (fun c => qOf c.start == k) =
      l.filter (fun c => qOf c.start == k) := by
  induction l with
  | nil => rfl
  | cons a l ih =>
    rw [List.insertionSort, filter_orderedInsert, List.filter_cons, ih]

theorem mem_normTimeline_props {raw : RawInput} {c : Clip} (hc : c ∈ normTimeline raw) :
    c.videoId ≠ "" ∧ (∃ qs : ℚ, c.start = .num qs ∧ 0 ≤ qs) ∧
      ∃ qi qo : ℚ, c.in_ = .num qi ∧ c.out = .num qo ∧ qi < qo := by
  rw [normTimeline, List.mem_insertionSort] at hc
  cases raw with
  | notArray => simp [survivors] at hc
  | arr l =>
    rw [survivors, List.mem_filter] at hc
    obtain ⟨hc1, h2⟩ := hc
    rw [List.mem_filter] at hc1
    obtain ⟨_, h1⟩ := hc1
    rw [keepClip1] at h1
    rw [keepClip2] at h2
    simp only [Bool.and_eq_true, decide_eq_true_eq] at h1 h2
    obtain ⟨⟨⟨hv, hs⟩, hi⟩, ho⟩ := h1
    obtain ⟨hgt, hge⟩ := h2
    refine ⟨hv, ?_, ?_⟩
    · cases hcs : c.start with
      | num qs =>
        refine ⟨qs, rfl, ?_⟩
        rw [hcs] at hge
        rw [jgeB] at hge
        exact of_decide_eq_true hge
      | nan => rw [hcs] at hs; simp [JNum.isFinite] at hs
      | inf => rw [hcs] at hs; simp [JNum.isFinite] at hs
      | ninf => rw [hcs] at hs; simp [JNum.isFinite] at hs
    · cases hci : c.in_ with
      | num qi =>
        cases hco : c.out with
        | num qo =>
          refine ⟨qi, qo, rfl, rfl, ?_⟩
          rw [hci, hco] at hgt
          rw [jgtB] at hgt
          exact of_decide_eq_true hgt
        | nan => rw [hco] at ho; simp [JNum.isFinite] at ho
        | inf => rw [hco] at ho; simp [JNum.isFinite] at ho
        | ninf => rw [hco] at ho; simp [JNum.isFinite] at ho
      | nan => rw [hci] at hi; simp [JNum.isFinite] at hi
      | inf => rw [hci] at hi; simp [JNum.isFinite] at hi
      | ninf => rw [hci] at hi; simp [JNum.isFinite] at hi

theorem clipDur_of_mem {raw : RawInput} {c : Clip} (hc : c ∈ normTimeline raw) :
    ∃ qi qo : ℚ, c.in_ = .num qi ∧ c.out = .num qo ∧ qi < qo ∧
      clipDur c = .num (qo - qi) ∧ clipDur c = jsub c.out c.in_ := by
  obtain ⟨-, -, qi, qo, hi, ho, hlt⟩ := mem_normTimeline_props hc
  refine ⟨qi, qo, hi, ho, hlt, ?_, ?_⟩ <;>
    rw [clipDur, hi, ho, jsub, jmax0] <;>
    · congr 1
      exact max_eq_right (sub_pos.mpr hlt).le

theorem normTimeline_sorted (raw : RawInput) :
    (normTimeline raw).Sorted startLe :=
  List.sorted_insertionSort startLe (survivors raw)

theorem coerceClip_clipToRaw (c : Clip) : coerceClip (clipToRaw c) = c := rfl

theorem survivors_of_normalized (raw : RawInput) :
    survivors (RawInput.arr ((normTimeline raw).map clipToRaw)) = normTimeline raw := by
  rw [survivors, List.map_map]
  have h1 : (normTimeline raw).map (coerceClip ∘ clipToRaw) = normTimeline raw := by
    have : ∀ c ∈ normTimeline raw, (coerceClip ∘ clipToRaw) c = id c := by
      intro c _
      exact coerceClip_clipToRaw c
    rw [List.map_congr_left this, List.map_id]
  rw [h1]
  have hf1 : (normTimeline raw).filter keepClip1 = normTimeline raw := by
    rw [List.filter_eq_self]
    intro c hcmem
    obtain ⟨hv, ⟨qs, hs, -⟩, qi, qo, hi, ho, -⟩ := mem_normTimeline_props hcmem
    rw [keepClip1, hs, hi, ho]
    simp [JNum.isFinite, hv]
  rw [hf1]
  rw [List.filter_eq_self]
  intro c hcmem
  obtain ⟨-, ⟨qs, hs, hqs⟩, qi, qo, hi, ho, hlt⟩ := mem_normTimeline_props hcmem
  rw [keepClip2, hs, hi, ho, jgtB, jgeB]
  simp [hlt, hqs]

theorem snd_mem_of_mem_enumFrom {l : List Clip} :
    ∀ {s : Nat} {p : Nat × Clip}, p ∈ List.enumFrom s l → p.2 ∈ l := by
  induction l with
  | nil => intro s p h; simp [List.enumFrom] at h
  | cons x xs ih =>
    intro s p h
    rw [List.enumFrom] at h
    rcases List.mem_cons.mp h with h | h
    · rw [h]; exact List.mem_cons_self _ _
    · exact List.mem_cons_of_mem _ (ih h)

/-! ## Lemmas: indexing two-element blocks of a flatMap -/

theorem flatMap_two_length {α β : Type} (F : α → List β) (hF : ∀ x, (F x).length = 2) :
    ∀ l : List α, (l.flatMap F).length = 2 * l.length := by
  intro l
  induction l with
  | nil => rfl
  | cons x xs ih =>
    rw [List.flatMap_cons, List.length_append, hF, ih, List.length_cons]
    omega

theorem flatMap_two_get {α β : Type} (F : α → List β) (hF : ∀ x, (F x).length = 2) :
    ∀ (l : List α) (i : Nat) (hi : i < l.length) (j : Nat), j < 2 →
      (l.flatMap F).get? (2 * i + j) = (F (l.get ⟨i, hi⟩)).get? j := by
  intro l
  induction l with
  | nil => intro i hi; simp at hi
  | cons x xs ih =>
    intro i hi j hj
    cases i with
    | zero =>
      rw [List.flatMap_cons, List.get?_append (by rw [hF]; omega)]
      have h0 : 2 * 0 + j = j := by omega
      rw [h0]
      rfl
    | succ i' =>
      rw [List.flatMap_cons, List.get?_append_right (by rw [hF]; omega)]
      have harith : 2 * (i' + 1) + j - (F x).length = 2 * i' + j := by
        rw [hF]; omega
      rw [harith, ih i' (by simpa using hi) j hj]
      rfl

/-! ## Lemmas: the orchestrator -/

theorem handler_eq_core (env : Env) :
    handler env = ((respCore env).1, cleanup env (respCore env).2) := by
  simp only [handler, respCore, catchAll, catchCore]
  repeat' split
  all_goals rfl

theorem cleanup_log (env : Env) (s : HState) : (cleanup env s).log = s.log := by
  rw [cleanup]; split <;> rfl

theorem cleanup_downloads (env : Env) (s : HState) :
    (cleanup env s).downloads = s.downloads := by
  rw [cleanup]; split <;> rfl

theorem cleanup_scratch (env : Env) (s : HState) (h : env.rmFails = false) :
    (cleanup env s).scratchExists = false := by
  rw [cleanup, h]
  rfl

/-! ## Claim theorems -/

/-- C4: for every export request in which the scratch directory is created, the
scratch directory no longer exists after the request completes on every exit
path (success, each validation failure, missing bucket configuration, and any
exception during download, probe, encode, upload or insert), provided the
removal itself succeeds; a failing cleanup is swallowed and never replaces the
response computed for the original outcome. -/
theorem c4_scratch_cleanup_every_path (env : Env) :
    (env.rmFails = false → (handler env).2.scratchExists = false)
    ∧ (handler { env with rmFails := true }).1 =
        (handler { env with rmFails := false }).1 := by
  constructor
  · intro h
    rw [handler_eq_core]
    exact cleanup_scratch env _ h
  · rw [handler_eq_core, handler_eq_core]
    rfl

theorem c4_scratch_cleanup_every_path_witness :
    ((handler envHappy).2.scratchExists = false)
    ∧ (handler { envHappy with rmFails := true }).1 =
        (handler { envHappy with rmFails := false }).1 :=
  ⟨(c4_scratch_cleanup_every_path envHappy).1 rfl,
   (c4_scratch_cleanup_every_path envHappy).2⟩

/-- C7: for every probe-process outcome, the stream prober returns true iff the
external tool closed with exit code zero and its trimmed stdout equals the
exact marker "audio"; any failure (spawn error, non-zero exit, other output)
yields false and no error is propagated. -/
theorem c7_prober_exact_marker (o : SpawnOutcome) :
    hasAudioStream o = true ↔
      ∃ out err, o = SpawnOutcome.close 0 out err ∧
        String.mk (trimChars out.data) = "audio" := by
  constructor
  · intro h
    cases o with
    | spawnErr m => rw [hasAudioStream, runCmdM] at h; exact absurd h (by simp)
    | close code out err =>
      by_cases hc : code = 0
      · subst hc
        refine ⟨out, err, rfl, ?_⟩
        rw [hasAudioStream, runCmdM, if_pos rfl] at h
        exact eq_of_beq h
      · rw [hasAudioStream, runCmdM, if_neg hc] at h
        exact absurd h (by simp)
  · rintro ⟨out, err, rfl, hout⟩
    rw [hasAudioStream, runCmdM, if_pos rfl]
    exact beq_iff_eq.mpr hout

theorem c7_prober_exact_marker_witness :
    hasAudioStream (SpawnOutcome.close 0 "audio\n" "") = true :=
  (c7_prober_exact_marker (SpawnOutcome.close 0 "audio\n" "")).mpr
    ⟨"audio\n", "", rfl, by decide⟩

/-- C9: the timeline normalizer is idempotent — normalizing the re-embedded
output of a normalization yields the same clip sequence. -/
theorem c9_normalizer_idempotent (raw : RawInput) :
    normTimeline (RawInput.arr ((normTimeline raw).map clipToRaw)) =
      normTimeline raw := by
  rw [normTimeline, survivors_of_normalized]
  exact List.Sorted.insertionSort_eq (normTimeline_sorted raw)

/-- C2: for every raw input, every surviving element of the normalized timeline
has a non-empty coerced source id, finite numeric fields, `in < out` and
`start >= 0`; the output is sorted ascending by `start` and is a
stable permutation of the filtered elements (elements with equal `start` keep
their relative order, expressed by key-filter preservation); non-array input
yields the empty timeline. -/
theorem c2_normalizer_contract (raw : RawInput) :
    (∀ c ∈ normTimeline raw,
        c.videoId ≠ "" ∧ (∃ qs : ℚ, c.start = .num qs ∧ 0 ≤ qs) ∧
          ∃ qi qo : ℚ, c.in_ = .num qi ∧ c.out = .num qo ∧ qi < qo)
    ∧ (normTimeline raw).Sorted startLe
    ∧ (∀ k : ℚ, (normTimeline raw).filter (fun c => qOf c.start == k) =
          (survivors raw).filter (fun c => qOf c.start == k))
    ∧ (normTimeline raw).Perm (survivors raw)
    ∧ normTimeline RawInput.notArray = [] :=
  ⟨fun _ hc => mem_normTimeline_props hc,
   normTimeline_sorted raw,
   fun k => filter_insertionSort_eq k (survivors raw),
   List.perm_insertionSort startLe (survivors raw),
   rfl⟩

theorem c2_normalizer_contract_witness :
    cA ∈ normTimeline rawEx ∧ cA.videoId ≠ "" ∧
      normTimeline rawEx = [cA, cB] ∧ (normTimeline rawEx).Sorted startLe :=
  ⟨by decide, ((c2_normalizer_contract rawEx).1 cA (by decide)).1,
   by decide, (c2_normalizer_contract rawEx).2.1⟩

/-- C5: when the request reaches source resolution and some clip's id has no
row in the metadata store, the handler answers 400 naming the first unresolved
id (in timeline order), attempts no download for any clip, and the scratch
directory does not survive (when its removal succeeds). -/
theorem c5_unresolved_id_fails_before_download (env : Env) (c0 : Clip)
    (h1 : ¬ titleStrOf env = "")
    (h2 : ¬ (clipsOf env).length = 0)
    (h3 : ¬ env.bucket = "")
    (h4 : (clipsOf env).find? (fun c => (lkOf env c.videoId).isNone) = some c0) :
    (handler env).1 =
        { status := 400, error := some ("Unknown clip videoId " ++ c0.videoId) }
    ∧ (handler env).2.downloads = 0
    ∧ (env.rmFails = false → (handler env).2.scratchExists = false) := by
  have hcore : respCore env =
      ({ status := 400, error := some ("Unknown clip videoId " ++ c0.videoId) },
       ({} : HState)) := by
    simp only [respCore]
    rw [if_neg h1, if_neg h2, if_neg h3, h4]
  refine ⟨?_, ?_, fun h => ?_⟩
  · rw [handler_eq_core, hcore]
  · rw [handler_eq_core, cleanup_downloads, hcore]
  · rw [handler_eq_core]
    exact cleanup_scratch env _ h

theorem c5_unresolved_id_fails_before_download_witness :
    (handler envUnknown).1 = { status := 400, error := some "Unknown clip videoId B" }
    ∧ (handler envUnknown).2.downloads = 0
    ∧ (handler envUnknown).2.scratchExists = false :=
  ⟨(c5_unresolved_id_fails_before_download envUnknown cB (by decide) (by decide)
      (by decide) (by decide)).1,
   (c5_unresolved_id_fails_before_download envUnknown cB (by decide) (by decide)
      (by decide) (by decide)).2.1,
   (c5_unresolved_id_fails_before_download envUnknown cB (by decide) (by decide)
      (by decide) (by decide)).2.2 rfl⟩

/-- C8 counterexample: a fatal encoder failure is answered with the raw error
message — here carrying an internal scratch path — rather than a generic JSON
error message, refuting "never leaks internal paths to the client". -/
theorem c8_counterexample_error_leak :
    (handler envLeak).1 =
      { status := 500,
        error := some "ffmpeg: /tmp/mytube-export-abc/inputs/src-0-A.mp4: Invalid data" }
    ∧ "ffmpeg: /tmp/mytube-export-abc/inputs/src-0-A.mp4: Invalid data" ≠
        "Failed to publish generated video" :=
  ⟨by decide, by decide⟩

/-- C8 (amended): every fatal export failure — a thrown download error, an
encoder failure, an upload failure, or an insert failure, i.e. every entry
into the handler's shared catch-all — is logged server-side with the original
detail and answered with a 500 JSON object whose error field carries the
thrown error's message itself (falling back to the generic
"Failed to publish generated video" only when the message is empty) — so
internal detail in the message does reach the client. -/
theorem c8_amended_error_passthrough (env : Env) (m : String)
    (h1 : ¬ titleStrOf env = "")
    (h2 : ¬ (clipsOf env).length = 0)
    (h3 : ¬ env.bucket = "")
    (h4 : (clipsOf env).find? (fun c => (lkOf env c.videoId).isNone) = none)
    (hfail :
      (downloadLoop env.downloadOk (lkOf env) 0 (clipsOf env)).2 = LoopResult.thrown m
      ∨ ((downloadLoop env.downloadOk (lkOf env) 0 (clipsOf env)).2 = LoopResult.done
          ∧ env.encode (filterOf env) = Except.error m)
      ∨ ((downloadLoop env.downloadOk (lkOf env) 0 (clipsOf env)).2 = LoopResult.done
          ∧ env.encode (filterOf env) = Except.ok ()
          ∧ env.upload = Except.error m)
      ∨ ((downloadLoop env.downloadOk (lkOf env) 0 (clipsOf env)).2 = LoopResult.done
          ∧ env.encode (filterOf env) = Except.ok ()
          ∧ env.upload = Except.ok ()
          ∧ env.insertId = Except.error m)) :
    (handler env).1.status = 500
    ∧ (handler env).1.error =
        some (if m = "" then "Failed to publish generated video" else m)
    ∧ (handler env).2.log = ["POST /api/generate/publish error: " ++ m] := by
  have hcore : respCore env =
      catchCore m
        { ({} : HState) with
          downloads := (downloadLoop env.downloadOk (lkOf env) 0 (clipsOf env)).1 } := by
    rcases hfail with h5 | ⟨h5, h6⟩ | ⟨h5, h6, h7⟩ | ⟨h5, h6, h7, h8⟩
    · simp only [respCore]
      rw [if_neg h1, if_neg h2, if_neg h3, h4, h5]
    · simp only [respCore]
      rw [if_neg h1, if_neg h2, if_neg h3, h4, h5, h6]
    · simp only [respCore]
      rw [if_neg h1, if_neg h2, if_neg h3, h4, h5, h6, h7]
    · simp only [respCore]
      rw [if_neg h1, if_neg h2, if_neg h3, h4, h5, h6, h7, h8]
  refine ⟨?_, ?_, ?_⟩
  · rw [handler_eq_core, hcore]; rfl
  · rw [handler_eq_core, hcore]; rfl
  · rw [handler_eq_core, cleanup_log, hcore]; rfl

theorem c8_amended_error_passthrough_witness :
    ((handler envDownFail).1.status = 500
      ∧ (handler envDownFail).1.error = some "S3 download failed for a.mp4"
      ∧ (handler envDownFail).2.log =
          ["POST /api/generate/publish error: S3 download failed for a.mp4"])
    ∧ ((handler envLeak).1.status = 500
      ∧ (handler envLeak).1.error =
          some "ffmpeg: /tmp/mytube-export-abc/inputs/src-0-A.mp4: Invalid data"
      ∧ (handler envLeak).2.log =
          ["POST /api/generate/publish error: ffmpeg: /tmp/mytube-export-abc/inputs/src-0-A.mp4: Invalid data"])
    ∧ ((handler envUpFail).1.status = 500
      ∧ (handler envUpFail).1.error = some "upload timeout")
    ∧ ((handler envInsFail).1.status = 500
      ∧ (handler envInsFail).1.error = some "db insert failed") := by
  have hd := c8_amended_error_passthrough envDownFail "S3 download failed for a.mp4"
    (by decide) (by decide) (by decide) (by decide) (Or.inl (by decide))
  have he := c8_amended_error_passthrough envLeak
    "ffmpeg: /tmp/mytube-export-abc/inputs/src-0-A.mp4: Invalid data"
    (by decide) (by decide) (by decide) (by decide)
    (Or.inr (Or.inl ⟨by decide, rfl⟩))
  have hu := c8_amended_error_passthrough envUpFail "upload timeout"
    (by decide) (by decide) (by decide) (by decide)
    (Or.inr (Or.inr (Or.inl ⟨by decide, rfl, rfl⟩)))
  have hi := c8_amended_error_passthrough envInsFail "db insert failed"
    (by decide) (by decide) (by decide) (by decide)
    (Or.inr (Or.inr (Or.inr ⟨by decide, rfl, rfl, rfl⟩)))
  refine ⟨⟨hd.1, by rw [hd.2.1]; rfl, hd.2.2⟩,
    ⟨he.1, by rw [he.2.1]; rfl, he.2.2⟩,
    ⟨hu.1, by rw [hu.2.1]; rfl⟩,
    ⟨hi.1, by rw [hi.2.1]; rfl⟩⟩

theorem dedupAux_length_le (l : List (List Char)) :
    ∀ seen, (dedupAux seen l).length ≤ l.length := by
  induction l with
  | nil => intro seen; exact le_refl 0
  | cons x xs ih =>
    intro seen
    rw [dedupAux]
    split
    · exact le_trans (ih seen) (Nat.le_succ _)
    · rw [List.length_cons]
      exact Nat.succ_le_succ (ih (x :: seen))

theorem dedupFirst_length_le (l : List (List Char)) :
    (dedupFirst l).length ≤ l.length := dedupAux_length_le l []

theorem mem_dedupAux {l : List (List Char)} {y : List Char} :
    ∀ {seen}, y ∈ dedupAux seen l → y ∈ l ∧ y ∉ seen := by
  induction l with
  | nil => intro seen hy; simp [dedupAux] at hy
  | cons x xs ih =>
    intro seen hy
    rw [dedupAux] at hy
    split at hy
    · obtain ⟨h1, h2⟩ := ih hy
      exact ⟨List.mem_cons_of_mem _ h1, h2⟩
    · rcases List.mem_cons.mp hy with h | h
      · subst h
        exact ⟨List.mem_cons_self _ _, by assumption⟩
      · obtain ⟨h1, h2⟩ := ih h
        refine ⟨List.mem_cons_of_mem _ h1, fun hseen => h2 (List.mem_cons_of_mem _ hseen)⟩

theorem nodup_dedupAux (l : List (List Char)) :
    ∀ seen, (dedupAux seen l).Nodup := by
  induction l with
  | nil => intro seen; exact List.nodup_nil
  | cons x xs ih =>
    intro seen
    rw [dedupAux]
    split
    · exact ih seen
    · refine List.Nodup.cons ?_ (ih (x :: seen))
      intro hx
      exact (mem_dedupAux hx).2 (List.mem_cons_self _ _)

theorem nodup_dedupFirst (l : List (List Char)) : (dedupFirst l).Nodup :=
  nodup_dedupAux l []

/-- C6 counterexample: the source truncates to 30 entries *before*
deduplicating, so `bigTagInput` — whose 32 entries contain 31 distinct tags —
stores only 29 tags, while the claim's dedup-then-truncate order would store
30; the claim "any input producing more than 30 unique tags is truncated
to 30" fails at this input. -/
theorem c6_counterexample_truncate_before_dedup :
    tagsArr bigTagInput ≠ tagsSpecOrder bigTagInput
    ∧ (dedupFirst (tagItems bigTagInput)).length = 31
    ∧ (tagsArr bigTagInput).length = 29
    ∧ (tagsSpecOrder bigTagInput).length = 30 :=
  ⟨by decide, by decide, by decide, by decide⟩

/-- C6 (amended): the stored tag list is the comma-separated entries trimmed,
lowercased, with empty entries dropped, of which only the first 30 are kept
and then deduplicated (case-insensitively, by the prior lowercasing) in first
occurrence order; the example input stores exactly ["funny", "cats"]; the list
never exceeds 30 entries and never contains duplicates, but an input with more
than 30 unique tags may store fewer than 30 of them. -/
theorem c6_tags_normalization_amended :
    tagsArr "Funny, funny , CATS,,cats" = ["funny", "cats"]
    ∧ (∀ s : String, tagsArr s = (dedupFirst ((tagItems s).take 30)).map String.mk)
    ∧ (∀ s : String, (tagsArr s).length ≤ 30)
    ∧ (∀ s : String, (tagsArr s).Nodup) := by
  refine ⟨by decide, fun s => rfl, fun s => ?_, fun s => ?_⟩
  · rw [tagsArr, List.length_map]
    calc (dedupFirst ((tagItems s).take 30)).length
        ≤ ((tagItems s).take 30).length := dedupFirst_length_le _
      _ ≤ 30 := by rw [List.length_take]; exact min_le_left _ _
  · rw [tagsArr]
    refine List.Nodup.map ?_ (nodup_dedupFirst _)
    intro a b hab
    injection hab

theorem buildParts_stage_get (clips : List Clip) (flags : List Bool)
    (i : Nat) (hi : i < clips.length) :
    (buildParts clips flags).get? (2 * i) =
        some (videoStage i (clips.get ⟨i, hi⟩))
    ∧ (buildParts clips flags).get? (2 * i + 1) =
        some (audioStage i (clips.get ⟨i, hi⟩) (flags.getD i false)) := by
  have hF : ∀ p : Nat × Clip,
      ([videoStage p.1 p.2, audioStage p.1 p.2 (flags.getD p.1 false)]).length = 2 :=
    fun _ => rfl
  have hlen : (clips.enum.flatMap fun p =>
      [videoStage p.1 p.2, audioStage p.1 p.2 (flags.getD p.1 false)]).length =
        2 * clips.length := by
    rw [flatMap_two_length _ hF, List.enum_length]
  have hi' : i < clips.enum.length := by rw [List.enum_length]; exact hi
  have henum : clips.enum.get ⟨i, hi'⟩ = (i, clips.get ⟨i, hi⟩) := by
    simp [List.get_eq_getElem, List.getElem_enum]
  constructor
  · rw [buildParts, List.get?_append (by rw [hlen]; omega)]
    have hg := flatMap_two_get _ hF clips.enum i hi' 0 (by omega)
    rw [henum] at hg
    simpa using hg
  · rw [buildParts, List.get?_append (by rw [hlen]; omega)]
    have hg := flatMap_two_get _ hF clips.enum i hi' 1 (by omega)
    rw [henum] at hg
    simpa using hg

/-- C10: the filter graph builder is total on arbitrary clip arrays (it always
emits one video and one audio stage per clip plus the final concatenation, 2N+1
parts in all); the duration embedded in the video trim stage and in the
synthesized-silence stage of clip i is Math.max(0, out - in) of that clip, and
this value is never a negative number even when out <= in. -/
theorem c10_builder_total_duration_clamped (clips : List Clip) (flags : List Bool) :
    (buildParts clips flags).length = 2 * clips.length + 1
    ∧ (∀ (i : Nat) (hi : i < clips.length),
        (buildParts clips flags).get? (2 * i) = some
          ("[" ++ natStr i ++ ":v]trim=start=" ++ jnumStr (clips.get ⟨i, hi⟩).in_ ++
           ":duration=" ++
           jnumStr (jmax0 (jsub (clips.get ⟨i, hi⟩).out (clips.get ⟨i, hi⟩).in_)) ++
           ",setpts=PTS-STARTPTS[v" ++ natStr i ++ "]")
        ∧ (flags.getD i false = false →
            (buildParts clips flags).get? (2 * i + 1) = some
              ("aevalsrc=0:d=" ++
               jnumStr (jmax0 (jsub (clips.get ⟨i, hi⟩).out (clips.get ⟨i, hi⟩).in_)) ++
               "[a" ++ natStr i ++ "]")))
    ∧ (∀ (c : Clip) (q : ℚ), jmax0 (jsub c.out c.in_) = .num q → 0 ≤ q) := by
  have hF : ∀ p : Nat × Clip,
      ([videoStage p.1 p.2, audioStage p.1 p.2 (flags.getD p.1 false)]).length = 2 :=
    fun _ => rfl
  refine ⟨?_, fun i hi => ⟨?_, fun hflag => ?_⟩, fun c q h => ?_⟩
  · rw [buildParts, List.length_append, flatMap_two_length _ hF, List.enum_length]
    rfl
  · exact (buildParts_stage_get clips flags i hi).1
  · rw [(buildParts_stage_get clips flags i hi).2, hflag]
    rfl
  · cases hs : jsub c.out c.in_ with
    | num a =>
      rw [hs, jmax0] at h
      injection h with h'
      rw [← h']
      exact le_max_left 0 a
    | nan => rw [hs] at h; simp [jmax0] at h
    | inf => rw [hs] at h; simp [jmax0] at h
    | ninf =>
      rw [hs, jmax0] at h
      injection h with h'
      rw [← h']

unseal Rat.add Rat.mul Rat.sub Rat.inv in
theorem c10_builder_total_duration_clamped_witness :
    (buildParts [cBad] []).length = 3
    ∧ (buildParts [cBad] []).get? 1 = some "aevalsrc=0:d=0[a0]" := by
  have h := c10_builder_total_duration_clamped [cBad] []
  refine ⟨h.1, ?_⟩
  have h2 := (h.2.1 0 (by decide)).2 (by decide)
  rw [show (2 * 0 + 1 : Nat) = 1 from rfl] at h2
  rw [h2]
  decide

/-- C3: for every normalized timeline and parallel flag array, clip i with a
false audio flag contributes the synthesized-silence stage labeled `a{i}` whose
duration parameter is exactly that clip's own duration out_i - in_i (the
Math.max clamp is the identity after normalization); with a true flag it
contributes the audio trim-and-reset stage labeled `a{i}` instead; and every
clip also contributes its video stage labeled `v{i}`. -/
theorem c3_silence_uses_own_duration (raw : RawInput) (flags : List Bool)
    (i : Nat) (hi : i < (normTimeline raw).length) :
    (flags.getD i false = false →
      (buildParts (normTimeline raw) flags).get? (2 * i + 1) = some
        ("aevalsrc=0:d=" ++
         jnumStr (jsub ((normTimeline raw).get ⟨i, hi⟩).out
            ((normTimeline raw).get ⟨i, hi⟩).in_) ++
         "[a" ++ natStr i ++ "]"))
    ∧ (flags.getD i false = true →
      (buildParts (normTimeline raw) flags).get? (2 * i + 1) = some
        ("[" ++ natStr i ++ ":a]atrim=start=" ++
         jnumStr ((normTimeline raw).get ⟨i, hi⟩).in_ ++ ":duration=" ++
         jnumStr (jsub ((normTimeline raw).get ⟨i, hi⟩).out
            ((normTimeline raw).get ⟨i, hi⟩).in_) ++
         ",asetpts=PTS-STARTPTS[a" ++ natStr i ++ "]"))
    ∧ (buildParts (normTimeline raw) flags).get? (2 * i) =
        some (videoStage i ((normTimeline raw).get ⟨i, hi⟩)) := by
  have hmem : (normTimeline raw).get ⟨i, hi⟩ ∈ normTimeline raw :=
    List.get_mem (normTimeline raw) i hi
  obtain ⟨qi, qo, hin, hout, hlt, hdur, hdur'⟩ := clipDur_of_mem hmem
  have hstage := buildParts_stage_get (normTimeline raw) flags i hi
  refine ⟨fun hflag => ?_, fun hflag => ?_, hstage.1⟩
  · rw [hstage.2, hflag, audioStage, if_neg (by simp), hdur']
  · rw [hstage.2, hflag, audioStage, if_pos rfl, hdur']

unseal Rat.add Rat.mul Rat.sub Rat.inv in
theorem c3_silence_uses_own_duration_witness :
    (buildParts (normTimeline rawEx) [true, false]).get? 3 =
        some "aevalsrc=0:d=3[a1]"
    ∧ (buildParts (normTimeline rawEx) [true, false]).get? 1 =
        some "[0:a]atrim=start=2:duration=3,asetpts=PTS-STARTPTS[a0]" := by
  have h1 := (c3_silence_uses_own_duration rawEx [true, false] 1 (by decide)).1 (by decide)
  have h0 := (c3_silence_uses_own_duration rawEx [true, false] 0 (by decide)).2.1 (by decide)
  rw [show (2 * 1 + 1 : Nat) = 3 from rfl] at h1
  rw [show (2 * 0 + 1 : Nat) = 1 from rfl] at h0
  rw [h1, h0]
  constructor <;> decide

/-- C1: for every normalized timeline of N clips and parallel array of N audio
flags, the built filter graph ends with exactly one concatenation stage — every
preceding part is a trim/silence stage, never a concatenation — whose input
label list is the strict alternation [v0][a0][v1][a1]...[vN-1][aN-1] (2N labels,
the video and audio label of clip i at positions 2i and 2i+1), declaring n=N
segments with v=1 and a=1 and producing [vout][aout]; for a two-clip timeline
the stage is exactly `[v0][a0][v1][a1]concat=n=2:v=1:a=1[vout][aout]`. -/
theorem c1_concat_stage_interleaved (raw : RawInput) (flags : List Bool)
    (hlen : flags.length = (normTimeline raw).length) :
    (∃ body, buildParts (normTimeline raw) flags =
        body ++ [concatStage (normTimeline raw).length]
      ∧ ∀ p ∈ body, isConcatStage p = false)
    ∧ isConcatStage (concatStage (normTimeline raw).length) = true
    ∧ concatStage (normTimeline raw).length =
        interleavedLabels (normTimeline raw).length ++ "concat=n=" ++
          natStr (normTimeline raw).length ++ ":v=1:a=1[vout][aout]"
    ∧ (inputLabels (normTimeline raw).length).length = 2 * (normTimeline raw).length
    ∧ (∀ i, i < (normTimeline raw).length →
        (inputLabels (normTimeline raw).length).get? (2 * i) =
            some ("[v" ++ natStr i ++ "]")
        ∧ (inputLabels (normTimeline raw).length).get? (2 * i + 1) =
            some ("[a" ++ natStr i ++ "]"))
    ∧ concatStage 2 = "[v0][a0][v1][a1]concat=n=2:v=1:a=1[vout][aout]" := by
  have hF : ∀ i : Nat,
      (["[v" ++ natStr i ++ "]", "[a" ++ natStr i ++ "]"]).length = 2 :=
    fun _ => rfl
  refine ⟨⟨_, rfl, ?_⟩, isConcatStage_concatStage _, rfl, ?_, fun i hi => ?_, by decide⟩
  · intro p hp
    rw [List.mem_flatMap] at hp
    obtain ⟨pr, hpr, hpmem⟩ := hp
    have hcmem : pr.2 ∈ normTimeline raw := snd_mem_of_mem_enumFrom hpr
    obtain ⟨qi, qo, hin, hout, hlt, hdur, -⟩ := clipDur_of_mem hcmem
    rcases List.mem_cons.mp hpmem with h | h
    · rw [h]
      exact videoStage_no_concat pr.1 hin hdur
    · rw [List.mem_singleton] at h
      rw [h]
      exact audioStage_no_concat pr.1 hin hdur _
  · rw [inputLabels, flatMap_two_length _ hF, List.length_range]
  · have hi' : i < (List.range (normTimeline raw).length).length := by
      rw [List.length_range]; exact hi
    have hrange : (List.range (normTimeline raw).length).get ⟨i, hi'⟩ = i := by
      simp [List.get_eq_getElem, List.getElem_range]
    constructor
    · have hg := flatMap_two_get _ hF (List.range (normTimeline raw).length) i hi' 0
        (by omega)
      rw [hrange] at hg
      rw [inputLabels]
      simpa using hg
    · have hg := flatMap_two_get _ hF (List.range (normTimeline raw).length) i hi' 1
        (by omega)
      rw [hrange] at hg
      rw [inputLabels]
      simpa using hg

theorem c1_concat_stage_interleaved_witness :
    ([true, false] : List Bool).length = (normTimeline rawEx).length
    ∧ isConcatStage (concatStage (normTimeline rawEx).length) = true
    ∧ concatStage 2 = "[v0][a0][v1][a1]concat=n=2:v=1:a=1[vout][aout]"
    ∧ (inputLabels (normTimeline rawEx).length).get? 0 = some "[v0]" := by
  have h := c1_concat_stage_interleaved rawEx [true, false] (by decide)
  refine ⟨by decide, h.2.1, h.2.2.2.2.2, ?_⟩
  have h0 := (h.2.2.2.2.1 0 (by decide)).1
  rw [show (2 * 0 : Nat) = 0 from rfl] at h0
  rw [h0]
  decide

end MyTube
